import Mathlib

/-!
Verification of `initialize/prepare_mesh.py` (grasping repository).

The script is a batch pipeline: it merges per-object parameter files,
deduplicates objects that share identical morph coefficients within a
class, repairs and converts meshes, computes physical properties, and
writes a summary table.  We give a shallow embedding: the filesystem is
a pair of directory listings plus total reader functions, the external
trimesh library is an oracle (`loadMesh`) returning either an error
(modelling a raised exception) or a `Mesh` whose pre- and post-repair
states are both recorded, and numerics are modelled over `ℚ`.

Python string primitives used by the script (`s.split(sep)[0]` and
`sub in s`) are embedded as explicit recursive functions on `List Char`:
`beforeFirst` returns the text before the first occurrence of the
separator, and `containsSub` is substring containment.

Python 2 `list(set(...))` enumerates a set in an unspecified (but
per-run fixed) order; we model it as first-occurrence-order
deduplication (`dedupFirst`), which has the same underlying set.
-/

/-- `hasPre pat s` is true iff the character list `pat` is an initial
segment of `s` (Python `s.startswith(pat)`). -/
def hasPre : List Char → List Char → Bool
  | [], _ => true
  | _ :: _, [] => false
  | a :: as, b :: bs => a == b && hasPre as bs

/-- Text before the first occurrence of `sep` in `s`; the whole of `s`
when `sep` does not occur (Python `s.split(sep)[0]` for nonempty `sep`). -/
def beforeFirst (sep : List Char) : List Char → List Char
  | [] => []
  | c :: rest => if hasPre sep (c :: rest) then [] else c :: beforeFirst sep rest

/-- Substring containment (Python `pat in s`). -/
def containsSub (pat : List Char) : List Char → Bool
  | [] => hasPre pat []
  | c :: rest => hasPre pat (c :: rest) || containsSub pat rest

/-- String wrapper for `beforeFirst`. -/
def strBefore (sep s : String) : String := String.mk (beforeFirst sep.data s.data)

/-- String wrapper for `containsSub`. -/
def strContainsSub (pat s : String) : Bool := containsSub pat.data s.data

/-- Deduplication keeping the first occurrence of each element, with an
accumulator of already-seen elements. -/
def dedupFirstAux {α : Type} [DecidableEq α] (seen : List α) : List α → List α
  | [] => []
  | x :: xs =>
    if x ∈ seen then dedupFirstAux seen xs else x :: dedupFirstAux (x :: seen) xs

/-- Deterministic model of Python 2 `list(set(l))`: first-occurrence
deduplication. -/
def dedupFirst {α : Type} [DecidableEq α] (l : List α) : List α := dedupFirstAux [] l

/-- `GLOBAL_MASS = 1.0` from the script. -/
def GLOBAL_MASS : ℚ := 1

/-- `GLOBAL_DENSITY = 1000.` from the script. -/
def GLOBAL_DENSITY : ℚ := 1000

/-- `GLOBAL_MESH_EXTENSION = '.obj'` from the script. -/
def GLOBAL_MESH_EXTENSION : String := ".obj"

/-- The default parameter-file name ending `'-params.csv'`. -/
def PARAM_SUFFIX : String := "-params.csv"

/-- State reported by the mesh library for one mesh: watertightness,
center of mass, the 3x3 inertia tensor (as a list of rows) and the
density it used for the mass-property computation. -/
structure MeshData where
  is_watertight : Bool
  center_mass : List ℚ
  inertia : List (List ℚ)
  density : ℚ
deriving DecidableEq

/-- A loaded trimesh object: its state as loaded (`initial`) and its
state after the in-place repair call `mesh.process()` (`afterProcess`). -/
structure Mesh where
  initial : MeshData
  afterProcess : MeshData
deriving DecidableEq

/-- The pipeline inputs: the two directory listings and readers for
parameter files and geometry files.  Directory-path prefixes are
absorbed into the reader functions; `loadMesh` returning `.error`
models `trimesh.load_mesh` raising an exception.  `readParams` is
total: `Env` is the projection of the raw filesystem model `FsEnv`
(defined below) to runs in which every `pd.read_csv` call succeeds —
the script leaves that call unguarded, so a failing parse aborts the
run, which `merge_parameter_files_fallible` models. -/
structure Env where
  objectListing : List String
  paramListing : List String
  readParams : String → List ℚ
  loadMesh : String → Except String Mesh

/-- Base names of geometry files: `f.split('.')[0]` over the object
directory listing. -/
def objectBasenames (env : Env) : List String :=
  env.objectListing.map (fun f => strBefore "." f)

/-- `list(set(morph_files) & set(object_files))`: parameter files whose
name contains the suffix, stripped, intersected with geometry base
names.  The set is enumerated in first-occurrence order. -/
def morphCandidates (env : Env) (pfix : String) : List String :=
  dedupFirst (((env.paramListing.filter (fun f => strContainsSub pfix f)).map
      (fun f => strBefore pfix f)).filter (fun f => decide (f ∈ objectBasenames env)))

/-- Candidates whose parameter file parses to exactly 24 fields; only
those contribute a row to the merged table. -/
def keptMorphFiles (env : Env) (pfix : String) : List String :=
  (morphCandidates env pfix).filter
    (fun f => decide ((env.readParams (f ++ pfix)).length = 24))

/-- `merge_parameter_files`: the merged parallel arrays of names and of
the first five parameter fields (the morph coefficients). -/
def merge_parameter_files (env : Env) (pfix : String) : List String × List (List ℚ) :=
  ((keptMorphFiles env pfix).map (fun f => strBefore pfix f),
   (keptMorphFiles env pfix).map (fun f => (env.readParams (f ++ pfix)).take 5))

/-- `f.split('-')[0]`: the class of an object name. -/
def classOf (f : String) : String := strBefore "-" f

/-- `list(set([f.split('-')[0] for f in names]))`. -/
def classesOf (names : List String) : List String := dedupFirst (names.map classOf)

/-- `cidx`: indices whose name CONTAINS the class string as a substring
(Python `unique in names[idx]`), not merely those whose class equals it. -/
def classIndices (names : List String) (c : String) : List Nat :=
  (List.range names.length).filter (fun i => strContainsSub c (names.getD i ""))

/-- Positions of the first occurrences of distinct values in a list:
the model of `pd.DataFrame(...).drop_duplicates().index.values` on a
freshly constructed frame. -/
def firstOccPos {α : Type} [DecidableEq α] (d : α) (xs : List α) : List Nat :=
  (List.range xs.length).filter (fun j => decide (xs.getD j d ∉ xs.take j))

/-- Global indices retained for one class: positions within `cidx`
whose coefficient row is a first occurrence, mapped back through `cidx`. -/
def classRetained (names : List String) (coeffs : List (List ℚ)) (c : String) : List Nat :=
  (firstOccPos [] ((classIndices names c).map (fun i => coeffs.getD i []))).map
    (fun j => (classIndices names c).getD j 0)

/-- `get_unique_objects`.  Returns `none` when the class list is empty,
modelling the `ValueError` raised by `np.vstack([])` in that case
(which happens exactly when `names` is empty). -/
def get_unique_objects (names : List String) (coeffs : List (List ℚ)) :
    Option (List Nat) :=
  if (classesOf names).isEmpty then none
  else some ((classesOf names).flatMap (classRetained names coeffs))

/-- Pointwise maximum on `ℚ` (`np.maximum`). -/
def rmax (a b : ℚ) : ℚ := if a ≤ b then b else a

/-- Pointwise minimum on `ℚ` (`np.minimum`). -/
def rmin (a b : ℚ) : ℚ := if a ≤ b then a else b

/-- `np.clip(x, -1e-1, 1e-1)`, i.e. `minimum(maximum(x, -1e-1), 1e-1)`. -/
def clip (x : ℚ) : ℚ := rmin (rmax x (-(1/10))) (1/10)

/-- The inertia post-processing of the script: divide by the density
the library reports, multiply by the target density, clamp each
component, flatten row-major. -/
def scaleClampInertia (d : MeshData) : List ℚ :=
  (d.inertia.map (fun row => row.map (fun x => clip (x / d.density * GLOBAL_DENSITY)))).flatten

/-- The watertight gate of the script: use the mesh as loaded when it is
watertight, otherwise repair it and use the result when that is
watertight, otherwise skip. -/
def selectMeshData (m : Mesh) : Option MeshData :=
  if m.initial.is_watertight then some m.initial
  else if m.afterProcess.is_watertight then some m.afterProcess
  else none

/-- One row of the accumulator array `processed`: name, mass, center of
mass (3 values) and flattened inertia (9 values). -/
structure Row where
  name : String
  mass : ℚ
  com : List ℚ
  inertia : List ℚ
deriving DecidableEq

/-- One loop iteration of `process_meshes`: load the mesh, apply the
watertight gate, and on success build the summary row. -/
def processOne (env : Env) (morph_name : String) : Option Row :=
  match env.loadMesh (morph_name ++ GLOBAL_MESH_EXTENSION) with
  | .error _ => none
  | .ok mesh =>
    match selectMeshData mesh with
    | none => none
    | some d =>
      some { name := morph_name, mass := GLOBAL_MASS,
             com := d.center_mass, inertia := scaleClampInertia d }

/-- Name of the exported converted mesh: `morph_name.split('.obj')[0] + '.stl'`. -/
def exportName (morph_name : String) : String := strBefore ".obj" morph_name ++ ".stl"

/-- The object names surviving merge and deduplication, in processing
order; `none` models the crash of `get_unique_objects` on empty input. -/
def retainedNames (env : Env) : Option (List String) :=
  (get_unique_objects (merge_parameter_files env PARAM_SUFFIX).1
      (merge_parameter_files env PARAM_SUFFIX).2).map
    (fun uidx => uidx.map (fun i => (merge_parameter_files env PARAM_SUFFIX).1.getD i ""))

/-- `process_meshes`: the summary rows, the exported mesh file names,
and the reported count of successfully processed meshes. -/
def process_meshes (env : Env) : Option (List Row × List String × Nat) :=
  (retainedNames env).map (fun morph_names =>
    (morph_names.filterMap (processOne env),
     (morph_names.filter (fun n => (processOne env n).isSome)).map exportName,
     (morph_names.filterMap (processOne env)).length))

/-- A cell of the output text file: csv.writer renders either the name
string or a number. -/
inductive Cell where
  | str : String → Cell
  | num : ℚ → Cell
deriving DecidableEq

/-- The cells of one written summary row, in file order. -/
def rowCells (r : Row) : List Cell :=
  Cell.str r.name :: Cell.num r.mass :: (r.com.map Cell.num ++ r.inertia.map Cell.num)

/-- The summary file resulting from opening `objects.txt` in truncating
write mode and writing one row per processed mesh: the prior file
content does not influence the result. -/
def writeSummary (_priorContent : List (List Cell)) (rows : List Row) : List (List Cell) :=
  rows.map rowCells

/-- The library contract the numpy slice assignments rely on: a
3-vector center of mass and a 3x3 inertia tensor. -/
def MeshDataWF (d : MeshData) : Prop :=
  d.center_mass.length = 3 ∧ d.inertia.length = 3 ∧ ∀ row ∈ d.inertia, row.length = 3

/-- Every mesh the library can return is well-formed. -/
def EnvWF (env : Env) : Prop :=
  ∀ path m, env.loadMesh path = .ok m → MeshDataWF m.initial ∧ MeshDataWF m.afterProcess

/-- A concrete well-formed mesh state used by the witnesses. -/
def meshDataEx : MeshData :=
  { is_watertight := true, center_mass := [0, 0, 0],
    inertia := [[0, 0, 0], [0, 0, 0], [0, 0, 0]], density := 1 }

/-- A concrete watertight mesh used by the witnesses. -/
def meshEx : Mesh := { initial := meshDataEx, afterProcess := meshDataEx }

/-- A concrete input environment with one object whose geometry and
parameter files are both present and whose mesh loads watertight. -/
def envEx : Env :=
  { objectListing := ["box-1.obj"], paramListing := ["box-1-params.csv"],
    readParams := fun _ => List.replicate 24 0,
    loadMesh := fun _ => Except.ok meshEx }

/-- A second, field-by-field identical copy of `envEx`. -/
def envEx2 : Env :=
  { objectListing := ["box-1.obj"], paramListing := ["box-1-params.csv"],
    readParams := fun _ => List.replicate 24 0,
    loadMesh := fun _ => Except.ok meshEx }

/-- The environment `envEx` with a geometry loader that always fails. -/
def envLoadFail : Env :=
  { objectListing := ["box-1.obj"], paramListing := ["box-1-params.csv"],
    readParams := fun _ => List.replicate 24 0,
    loadMesh := fun _ => Except.error "load failure" }

/-- An environment with no files at all. -/
def envEmpty : Env :=
  { objectListing := [], paramListing := [],
    readParams := fun _ => [], loadMesh := fun _ => Except.error "unused" }

/-- The summary row produced by the pipeline on `envEx`. -/
def rowEx : Row :=
  { name := "box-1", mass := 1, com := [0, 0, 0],
    inertia := [0, 0, 0, 0, 0, 0, 0, 0, 0] }

/-- The full pipeline output on `envEx`. -/
def outEx : List Row × List String × Nat := ([rowEx], ["box-1.stl"], 1)

/-- The pipeline inputs with the parameter reader's error path exposed:
`readParamsRaw` returning `.error` models `pd.read_csv` raising on a
file it cannot parse (an empty file, ragged rows).  The script does not
guard this call, so such an error aborts the whole merge.  `Env` with
its total `readParams` is the projection of this model to runs in which
every read succeeds (see `merge_fallible_refines_total`). -/
structure FsEnv where
  objectListing : List String
  paramListing : List String
  readParamsRaw : String → Except String (List ℚ)

/-- Base names of geometry files over the raw filesystem model. -/
def objectBasenamesF (fenv : FsEnv) : List String :=
  fenv.objectListing.map (fun f => strBefore "." f)

/-- Merge candidates over the raw filesystem model: same computation as
`morphCandidates`. -/
def morphCandidatesF (fenv : FsEnv) (pfix : String) : List String :=
  dedupFirst (((fenv.paramListing.filter (fun f => strContainsSub pfix f)).map
      (fun f => strBefore pfix f)).filter (fun f => decide (f ∈ objectBasenamesF fenv)))

/-- The merge loop with the unguarded read: each candidate file is read
in turn; the first file whose parse raises aborts the loop with that
error, and a row is appended only when the parse yields exactly 24
fields (name stripped again, coefficients = first five fields). -/
def mergeRowsF (readRaw : String → Except String (List ℚ)) (pfix : String) :
    List String → Except String (List (String × List ℚ))
  | [] => Except.ok []
  | f :: fs =>
    match readRaw (f ++ pfix) with
    | Except.error e => Except.error e
    | Except.ok fields =>
      match mergeRowsF readRaw pfix fs with
      | Except.error e => Except.error e
      | Except.ok rest =>
        Except.ok (if fields.length = 24 then
          (strBefore pfix f, fields.take 5) :: rest else rest)

/-- `merge_parameter_files` with the uncaught `pd.read_csv` error path
modelled: the merge either aborts with the first parse error, or yields
the parallel name and coefficient arrays of the kept rows. -/
def merge_parameter_files_fallible (fenv : FsEnv) (pfix : String) :
    Except String (List String × List (List ℚ)) :=
  match mergeRowsF fenv.readParamsRaw pfix (morphCandidatesF fenv pfix) with
  | Except.error e => Except.error e
  | Except.ok rows => Except.ok (rows.map Prod.fst, rows.map Prod.snd)

/-- A filesystem with one object whose parameter file cannot be parsed. -/
def fsEnvBad : FsEnv :=
  { objectListing := ["bad.obj"], paramListing := ["bad-params.csv"],
    readParamsRaw := fun _ => Except.error "EmptyDataError" }

/-- Parameter-file contents for `fsEnvOk`: 24 fields for `box-1`, 23
fields (one short) for `tri-1`. -/
def gEx : String → List ℚ := fun s =>
  if s = "box-1-params.csv" then List.replicate 24 0 else List.replicate 23 0

/-- A filesystem with two objects whose parameter files both parse; one
has the expected 24 fields, the other only 23. -/
def fsEnvOk : FsEnv :=
  { objectListing := ["box-1.obj", "tri-1.obj"],
    paramListing := ["box-1-params.csv", "tri-1-params.csv"],
    readParamsRaw := fun s => Except.ok (gEx s) }

/-! ## String-primitive lemmas -/

/-- `hasPre` is stable under extending the scanned list on the right. -/
theorem hasPre_append {p l : List Char} (t : List Char) (h : hasPre p l = true) :
    hasPre p (l ++ t) = true := by
  induction p generalizing l with
  | nil => rfl
  | cons a as ih =>
    cases l with
    | nil => simp [hasPre] at h
    | cons b bs =>
      simp only [hasPre, List.cons_append, Bool.and_eq_true] at h ⊢
      exact ⟨h.1, ih h.2⟩

/-- `beforeFirst sep s` is an initial segment of `s`. -/
theorem beforeFirst_pre (sep s : List Char) : ∃ t, beforeFirst sep s ++ t = s := by
  induction s with
  | nil => exact ⟨[], rfl⟩
  | cons c rest ih =>
    by_cases h : hasPre sep (c :: rest) = true
    · exact ⟨c :: rest, by simp [beforeFirst, h]⟩
    · obtain ⟨t, ht⟩ := ih
      exact ⟨t, by simp [beforeFirst, h, ht]⟩

/-- Taking the text before the first separator twice is the same as
taking it once. -/
theorem beforeFirst_idem (sep s : List Char) :
    beforeFirst sep (beforeFirst sep s) = beforeFirst sep s := by
  induction s with
  | nil => rfl
  | cons c rest ih =>
    by_cases h : hasPre sep (c :: rest) = true
    · simp [beforeFirst, h]
    · have hnot : ¬ hasPre sep (c :: beforeFirst sep rest) = true := by
        intro hc
        obtain ⟨t, ht⟩ := beforeFirst_pre sep rest
        have h2 := hasPre_append t hc
        rw [List.cons_append, ht] at h2
        exact h h2
      simp [beforeFirst, h, hnot, ih]

/-- String-level idempotence of `strBefore`. -/
theorem strBefore_idem (sep s : String) :
    strBefore sep (strBefore sep s) = strBefore sep s :=
  congrArg String.mk (beforeFirst_idem sep.data s.data)

/-! ## Deduplication lemmas -/

/-- Elements produced by `dedupFirstAux` come from the input list. -/
theorem mem_dedupFirstAux {α : Type} [DecidableEq α] {a : α} :
    ∀ (seen l : List α), a ∈ dedupFirstAux seen l → a ∈ l := by
  intro seen l
  induction l generalizing seen with
  | nil => simp [dedupFirstAux]
  | cons x xs ih =>
    simp only [dedupFirstAux]
    by_cases h : x ∈ seen
    · rw [if_pos h]
      intro hm
      exact List.mem_cons_of_mem _ (ih seen hm)
    · rw [if_neg h]
      intro hm
      rcases List.mem_cons.mp hm with h1 | h2
      · exact List.mem_cons.mpr (Or.inl h1)
      · exact List.mem_cons_of_mem _ (ih _ h2)

/-- Elements of `dedupFirst l` come from `l`. -/
theorem mem_dedupFirst {α : Type} [DecidableEq α] {a : α} {l : List α}
    (h : a ∈ dedupFirst l) : a ∈ l :=
  mem_dedupFirstAux [] l h

/-- Deduplicating a nonempty list yields a nonempty list. -/
theorem dedupFirst_ne_nil {α : Type} [DecidableEq α] {x : α} {xs : List α} :
    dedupFirst (x :: xs) ≠ [] := by
  simp [dedupFirst, dedupFirstAux]

/-! ## List-access lemmas -/

/-- An in-bounds `getD` access returns a member of the list. -/
theorem getD_mem {α : Type} {l : List α} {i : Nat} (d : α) (h : i < l.length) :
    l.getD i d ∈ l := by
  rw [List.getD_eq_getElem l d h]
  exact List.getElem_mem h

/-- `getD` after `map` at an in-bounds index. -/
theorem getD_map {α β : Type} (f : α → β) (l : List α) {i : Nat} (d : α) (e : β)
    (h : i < l.length) : (l.map f).getD i e = f (l.getD i d) := by
  rw [List.getD_eq_getElem _ e (by simpa using h), List.getElem_map,
    List.getD_eq_getElem _ d h]

/-- An element at an index below `j` is a member of `take j`. -/
theorem getD_mem_take {α : Type} {l : List α} {i j : Nat} (d : α)
    (hij : i < j) (hi : i < l.length) : l.getD i d ∈ l.take j := by
  have hlen : i < (l.take j).length := by
    simp only [List.length_take, lt_min_iff]
    exact ⟨hij, hi⟩
  have heq : (l.take j).getD i d = l.getD i d := by
    rw [List.getD_eq_getElem _ d hlen, List.getD_eq_getElem _ d hi, List.getElem_take]
  rw [← heq]
  exact getD_mem d hlen

/-! ## Deduplicator lemmas -/

/-- Membership in `firstOccPos`: exactly the in-bounds positions whose
value does not occur strictly earlier. -/
theorem mem_firstOccPos {α : Type} [DecidableEq α] {d : α} {xs : List α} {k : Nat} :
    k ∈ firstOccPos d xs ↔ k < xs.length ∧ xs.getD k d ∉ xs.take k := by
  simp [firstOccPos, List.mem_filter, List.mem_range]

/-- The values selected by `firstOccPos` are pairwise distinct. -/
theorem firstOccPos_map_getD_nodup {α : Type} [DecidableEq α] (d : α) (xs : List α) :
    ((firstOccPos d xs).map (fun k => xs.getD k d)).Nodup := by
  have base : (firstOccPos d xs).Pairwise (· < ·) :=
    (List.pairwise_lt_range _).filter _
  have strong : (firstOccPos d xs).Pairwise (fun a b => xs.getD a d ≠ xs.getD b d) := by
    refine base.imp_of_mem ?_
    intro a b ha hb hab heq
    have ha2 := mem_firstOccPos.mp ha
    have hb2 := mem_firstOccPos.mp hb
    exact hb2.2 (heq ▸ getD_mem_take d hab ha2.1)
  exact List.pairwise_map.mpr strong

/-- Membership in `classIndices`: in-bounds indices whose name contains
the class string as a substring. -/
theorem mem_classIndices {names : List String} {c : String} {i : Nat} :
    i ∈ classIndices names c ↔
      i < names.length ∧ strContainsSub c (names.getD i "") = true := by
  simp [classIndices, List.mem_filter, List.mem_range]

/-- Membership in `classRetained`: the image under `cidx` of a position
whose coefficient row is a first occurrence within the class. -/
theorem mem_classRetained {names : List String} {coeffs : List (List ℚ)} {c : String}
    {i : Nat} :
    i ∈ classRetained names coeffs c ↔
      ∃ k, k < (classIndices names c).length ∧ i = (classIndices names c).getD k 0 ∧
        ((classIndices names c).map (fun j => coeffs.getD j [])).getD k [] ∉
          ((classIndices names c).map (fun j => coeffs.getD j [])).take k := by
  simp only [classRetained, List.mem_map, mem_firstOccPos, List.length_map]
  constructor
  · rintro ⟨k, ⟨hk, hmem⟩, rfl⟩
    exact ⟨k, hk, rfl, hmem⟩
  · rintro ⟨k, hk, heq, hmem⟩
    exact ⟨k, ⟨hk, hmem⟩, heq.symm⟩

/-- Indices retained for a class belong to that class's index list. -/
theorem classRetained_subset_classIndices {names : List String}
    {coeffs : List (List ℚ)} {c : String} {i : Nat}
    (h : i ∈ classRetained names coeffs c) : i ∈ classIndices names c := by
  obtain ⟨k, hk, heq, -⟩ := mem_classRetained.mp h
  exact heq ▸ getD_mem 0 hk

/-- Indices in a class index list are in bounds. -/
theorem classIndices_lt {names : List String} {c : String} {i : Nat}
    (h : i ∈ classIndices names c) : i < names.length :=
  (mem_classIndices.mp h).1

/-- Within one class, the coefficient rows of the retained indices are
pairwise distinct. -/
theorem classRetained_map_coeff_nodup (names : List String) (coeffs : List (List ℚ))
    (c : String) :
    ((classRetained names coeffs c).map (fun i => coeffs.getD i [])).Nodup := by
  unfold classRetained
  rw [List.map_map]
  have hcong : ∀ j ∈ firstOccPos [] ((classIndices names c).map (fun i => coeffs.getD i [])),
      ((fun i => coeffs.getD i []) ∘ (fun j => (classIndices names c).getD j 0)) j =
        ((classIndices names c).map (fun i => coeffs.getD i [])).getD j [] := by
    intro j hj
    have hlt : j < ((classIndices names c).map (fun i => coeffs.getD i [])).length :=
      (mem_firstOccPos.mp hj).1
    rw [List.length_map] at hlt
    exact (getD_map (fun i => coeffs.getD i []) _ 0 [] hlt).symm
  rw [List.map_congr_left hcong]
  exact firstOccPos_map_getD_nodup [] _

/-! ## Parameter-merge lemmas -/

/-- A candidate file is kept iff its parameter file parses to exactly
24 fields. -/
theorem mem_keptMorphFiles {env : Env} {pfix f : String} :
    f ∈ keptMorphFiles env pfix ↔
      f ∈ morphCandidates env pfix ∧ (env.readParams (f ++ pfix)).length = 24 := by
  simp [keptMorphFiles, List.mem_filter]

/-- A merge candidate has a matching parameter listing entry and a
matching geometry base name. -/
theorem mem_morphCandidates {env : Env} {pfix f : String}
    (h : f ∈ morphCandidates env pfix) :
    (∃ p ∈ env.paramListing, strContainsSub pfix p = true ∧ strBefore pfix p = f) ∧
      f ∈ objectBasenames env := by
  have h1 := mem_dedupFirst h
  have h2 := List.mem_filter.mp h1
  refine ⟨?_, by simpa using h2.2⟩
  obtain ⟨p, hp, hpf⟩ := List.mem_map.mp h2.1
  have hp2 := List.mem_filter.mp hp
  exact ⟨p, hp2.1, hp2.2, hpf⟩

/-- An in-bounds entry of the merged name array is itself a kept morph
file name, and stripping the suffix from it again changes nothing. -/
theorem merged_name_mem {env : Env} {pfix : String} {i : Nat}
    (h : i < (merge_parameter_files env pfix).1.length) :
    (merge_parameter_files env pfix).1.getD i "" ∈ keptMorphFiles env pfix ∧
      strBefore pfix ((merge_parameter_files env pfix).1.getD i "") =
        (merge_parameter_files env pfix).1.getD i "" := by
  have hlen : i < (keptMorphFiles env pfix).length := by
    simpa [merge_parameter_files] using h
  have hval : (merge_parameter_files env pfix).1.getD i "" =
      strBefore pfix ((keptMorphFiles env pfix).getD i "") := by
    simp only [merge_parameter_files]
    exact getD_map _ _ "" "" hlen
  have hker : (keptMorphFiles env pfix).getD i "" ∈ keptMorphFiles env pfix :=
    getD_mem "" hlen
  obtain ⟨p, hp, hcon, hpf⟩ := (mem_morphCandidates (mem_keptMorphFiles.mp hker).1).1
  have hfix : strBefore pfix ((keptMorphFiles env pfix).getD i "") =
      (keptMorphFiles env pfix).getD i "" := by
    rw [← hpf]
    exact strBefore_idem pfix p
  constructor
  · rw [hval, hfix]
    exact hker
  · rw [hval, hfix]
    exact hfix

/-! ## Mesh-processing lemmas -/

/-- If the watertight gate selects a state, it is the loaded state or
the repaired state. -/
theorem selectMeshData_some {m : Mesh} {d : MeshData} (h : selectMeshData m = some d) :
    d = m.initial ∨ d = m.afterProcess := by
  unfold selectMeshData at h
  by_cases h1 : m.initial.is_watertight = true
  · rw [if_pos h1] at h
    exact Or.inl (Option.some.inj h).symm
  · rw [if_neg h1] at h
    by_cases h2 : m.afterProcess.is_watertight = true
    · rw [if_pos h2] at h
      exact Or.inr (Option.some.inj h).symm
    · rw [if_neg h2] at h
      cases h

/-- If the watertight gate selects a state, the mesh was watertight as
loaded, or only after repair. -/
theorem selectMeshData_watertight {m : Mesh} {d : MeshData}
    (h : selectMeshData m = some d) :
    m.initial.is_watertight = true ∨
      (m.initial.is_watertight = false ∧ m.afterProcess.is_watertight = true) := by
  unfold selectMeshData at h
  by_cases h1 : m.initial.is_watertight = true
  · exact Or.inl h1
  · rw [if_neg h1] at h
    by_cases h2 : m.afterProcess.is_watertight = true
    · exact Or.inr ⟨Bool.not_eq_true _ ▸ (by simpa using h1), h2⟩
    · rw [if_neg h2] at h
      cases h

/-- Unfolding of a successful `processOne` call. -/
theorem processOne_some {env : Env} {n : String} {r : Row}
    (h : processOne env n = some r) :
    ∃ mesh d, env.loadMesh (n ++ GLOBAL_MESH_EXTENSION) = Except.ok mesh ∧
      selectMeshData mesh = some d ∧
      r = { name := n, mass := GLOBAL_MASS, com := d.center_mass,
            inertia := scaleClampInertia d } := by
  unfold processOne at h
  cases hl : env.loadMesh (n ++ GLOBAL_MESH_EXTENSION) with
  | error e => rw [hl] at h; cases h
  | ok mesh =>
    rw [hl] at h
    have h2 : (match selectMeshData mesh with
        | none => none
        | some d => some { name := n, mass := GLOBAL_MASS, com := d.center_mass,
                           inertia := scaleClampInertia d }) = some r := h
    cases hs : selectMeshData mesh with
    | none => rw [hs] at h2; cases h2
    | some d =>
      rw [hs] at h2
      exact ⟨mesh, d, rfl, hs, (Option.some.inj h2).symm⟩

/-- A successful `processOne` call records the processed name in the row. -/
theorem processOne_name {env : Env} {n : String} {r : Row}
    (h : processOne env n = some r) : r.name = n := by
  obtain ⟨mesh, d, -, -, rfl⟩ := processOne_some h
  rfl

/-- When the geometry load fails, no row is produced. -/
theorem processOne_load_error {env : Env} {n : String} {e : String}
    (h : env.loadMesh (n ++ GLOBAL_MESH_EXTENSION) = Except.error e) :
    processOne env n = none := by
  unfold processOne
  rw [h]

/-- Every clamped value lies in the clamp range. -/
theorem clip_range (x : ℚ) : -(1/10) ≤ clip x ∧ clip x ≤ 1/10 := by
  have hmax : -(1/10) ≤ rmax x (-(1/10)) := by
    unfold rmax
    by_cases h : x ≤ -(1/10)
    · rw [if_pos h]
    · rw [if_neg h]
      exact le_of_not_le h
  unfold clip rmin
  by_cases h2 : rmax x (-(1/10)) ≤ 1/10
  · rw [if_pos h2]
    exact ⟨hmax, h2⟩
  · rw [if_neg h2]
    exact ⟨by norm_num, le_refl _⟩

/-- Every component of the post-processed inertia is a clamped value. -/
theorem mem_scaleClampInertia {d : MeshData} {x : ℚ} (h : x ∈ scaleClampInertia d) :
    ∃ y, x = clip y := by
  unfold scaleClampInertia at h
  rw [List.mem_flatten] at h
  obtain ⟨l, hl, hx⟩ := h
  rw [List.mem_map] at hl
  obtain ⟨row, hrow, hlrow⟩ := hl
  rw [← hlrow, List.mem_map] at hx
  obtain ⟨z, hz, hxz⟩ := hx
  exact ⟨z / d.density * GLOBAL_DENSITY, hxz.symm⟩

/-- Length of the post-processed inertia of a well-formed mesh state. -/
theorem scaleClampInertia_length {d : MeshData} (h : MeshDataWF d) :
    (scaleClampInertia d).length = 9 := by
  obtain ⟨-, h3, hrow⟩ := h
  obtain ⟨a, b, c, habc⟩ := List.length_eq_three.mp h3
  have ha := hrow a (by rw [habc]; exact List.mem_cons.mpr (Or.inl rfl))
  have hb := hrow b (by rw [habc]; simp)
  have hc := hrow c (by rw [habc]; simp)
  simp [scaleClampInertia, habc, ha, hb, hc]

/-! ## Pipeline destructuring lemmas -/

/-- Destructuring a successful pipeline run: the retained names exist
and the three output components are determined by them. -/
theorem process_meshes_some {env : Env} {out : List Row × List String × Nat}
    (h : process_meshes env = some out) :
    ∃ mns, retainedNames env = some mns ∧
      out.1 = mns.filterMap (processOne env) ∧
      out.2.1 = (mns.filter (fun n => (processOne env n).isSome)).map exportName ∧
      out.2.2 = (mns.filterMap (processOne env)).length := by
  unfold process_meshes at h
  rw [Option.map_eq_some'] at h
  obtain ⟨mns, hm, hout⟩ := h
  exact ⟨mns, hm, by rw [← hout], by rw [← hout], by rw [← hout]⟩

/-- Every row of a successful run comes from a successful `processOne`
call on its own recorded name. -/
theorem row_processOne {env : Env} {out : List Row × List String × Nat} {r : Row}
    (h : process_meshes env = some out) (hr : r ∈ out.1) :
    processOne env r.name = some r ∧ r.name ∈ (retainedNames env).getD [] := by
  obtain ⟨mns, hm, hrows, -, -⟩ := process_meshes_some h
  rw [hrows] at hr
  rw [List.mem_filterMap] at hr
  obtain ⟨n, hn, hpn⟩ := hr
  have hname := processOne_name hpn
  constructor
  · rw [hname]; exact hpn
  · rw [hm, hname]; exact hn

/-! ## Claim theorems -/

/-- C1 (counterexample): the deduplicator does not partition objects by
class prefix.  On names `["a-1", "ab-1"]` the distinct classes `"a"`
and `"ab"` both contain index 1, because membership is substring
containment, so the class groups overlap. -/
theorem class_groups_overlap_cex :
    "a" ∈ classesOf ["a-1", "ab-1"] ∧ "ab" ∈ classesOf ["a-1", "ab-1"] ∧ "a" ≠ "ab" ∧
      1 ∈ classIndices ["a-1", "ab-1"] "a" ∧ 1 ∈ classIndices ["a-1", "ab-1"] "ab" ∧
      ¬ List.Pairwise (fun c1 c2 => ∀ i ∈ classIndices ["a-1", "ab-1"] c1,
          i ∉ classIndices ["a-1", "ab-1"] c2) (classesOf ["a-1", "ab-1"]) := by
  decide

/-- C1 (amended): the deduplicator groups object indices by substring
containment of each class string (groups may overlap rather than
partition); within each class it retains exactly the positions whose
coefficient tuple is a first occurrence, so the coefficient tuples
retained within one class are pairwise distinct — at most one retained
index per class/coefficient pair — and `get_unique_objects` is the
concatenation of the per-class retained indices. -/
theorem dedup_within_class_first_occurrence (names : List String)
    (coeffs : List (List ℚ)) (c : String) :
    (∀ i, i ∈ classRetained names coeffs c ↔
      ∃ k, k < (classIndices names c).length ∧ i = (classIndices names c).getD k 0 ∧
        ((classIndices names c).map (fun j => coeffs.getD j [])).getD k [] ∉
          ((classIndices names c).map (fun j => coeffs.getD j [])).take k) ∧
    ((classRetained names coeffs c).map (fun i => coeffs.getD i [])).Nodup ∧
    get_unique_objects names coeffs =
      (if (classesOf names).isEmpty then none
       else some ((classesOf names).flatMap (classRetained names coeffs))) :=
  ⟨fun _ => mem_classRetained, classRetained_map_coeff_nodup names coeffs c, rfl⟩

/-- C10: class membership in `get_unique_objects` is substring
containment, not equality with the text before the first separator:
index 1 (name `"ab-1"`, class `"ab"`) is also a member of class `"a"`,
and consequently its index appears twice in the returned index list. -/
theorem substring_class_membership_dup :
    1 ∈ classIndices ["a-1", "ab-1"] "a" ∧ classOf "ab-1" = "ab" ∧ "ab" ≠ "a" ∧
      get_unique_objects ["a-1", "ab-1"] [[0, 0, 0, 0, 0], [1, 0, 0, 0, 0]] =
        some [0, 1, 1] ∧
      List.count 1 [0, 1, 1] = 2 := by
  decide

/-- In the total-reader projection of the merge, a candidate parameter
file's values are kept iff parsing yields exactly 24 fields; files with
any other field count are omitted and the merged name and coefficient
arrays stay aligned.  (The error path of the unguarded read is treated
in `param_merge_raises_or_keeps_24`.) -/
theorem param_file_kept_iff_24_fields (env : Env) (pfix f : String) :
    (f ∈ keptMorphFiles env pfix ↔
      f ∈ morphCandidates env pfix ∧ (env.readParams (f ++ pfix)).length = 24) ∧
    (merge_parameter_files env pfix).1.length =
      (merge_parameter_files env pfix).2.length :=
  ⟨mem_keptMorphFiles, by simp [merge_parameter_files]⟩

/-- C2: every record that reaches mesh processing — and hence every
output row — carries a name for which both a geometry file and a
parameter file were present in the input listings. -/
theorem processed_names_have_both_files (env : Env) :
    (∀ mns, retainedNames env = some mns → ∀ n ∈ mns,
      (∃ g ∈ env.objectListing, strBefore "." g = n) ∧
      ∃ p ∈ env.paramListing, strContainsSub PARAM_SUFFIX p = true ∧
        strBefore PARAM_SUFFIX p = n) ∧
    ∀ out, process_meshes env = some out → ∀ r ∈ out.1,
      (∃ g ∈ env.objectListing, strBefore "." g = r.name) ∧
      ∃ p ∈ env.paramListing, strContainsSub PARAM_SUFFIX p = true ∧
        strBefore PARAM_SUFFIX p = r.name := by
  have main : ∀ mns, retainedNames env = some mns → ∀ n ∈ mns,
      (∃ g ∈ env.objectListing, strBefore "." g = n) ∧
      ∃ p ∈ env.paramListing, strContainsSub PARAM_SUFFIX p = true ∧
        strBefore PARAM_SUFFIX p = n := by
    intro mns hm n hn
    unfold retainedNames at hm
    rw [Option.map_eq_some'] at hm
    obtain ⟨uidx, hu, hmap⟩ := hm
    rw [← hmap, List.mem_map] at hn
    obtain ⟨i, hi, hni⟩ := hn
    unfold get_unique_objects at hu
    by_cases hcl : (classesOf (merge_parameter_files env PARAM_SUFFIX).1).isEmpty = true
    · rw [if_pos hcl] at hu; cases hu
    · rw [if_neg hcl] at hu
      rw [← Option.some.inj hu, List.mem_flatMap] at hi
      obtain ⟨c, -, hic⟩ := hi
      have hlt := classIndices_lt (classRetained_subset_classIndices hic)
      obtain ⟨hkept, -⟩ := merged_name_mem hlt
      obtain ⟨hex, hobj⟩ := mem_morphCandidates (mem_keptMorphFiles.mp hkept).1
      constructor
      · rw [← hni]
        unfold objectBasenames at hobj
        rw [List.mem_map] at hobj
        obtain ⟨g, hg, hgn⟩ := hobj
        exact ⟨g, hg, hgn⟩
      · rw [← hni]
        exact hex
  refine ⟨main, ?_⟩
  intro out hout r hr
  obtain ⟨mns, hm, -, -, -⟩ := process_meshes_some hout
  have hro := row_processOne hout hr
  refine main mns hm r.name ?_
  have := hro.2
  rw [hm] at this
  simpa using this

/-- C4: every output row (with its exported converted mesh) comes from
a mesh that was watertight as loaded or watertight after one repair,
and a mesh that is still not watertight after repair yields no row. -/
theorem summary_rows_watertight (env : Env) (out : List Row × List String × Nat)
    (h : process_meshes env = some out) :
    (∀ r ∈ out.1,
      ∃ mesh, env.loadMesh (r.name ++ GLOBAL_MESH_EXTENSION) = Except.ok mesh ∧
        (mesh.initial.is_watertight = true ∨
          (mesh.initial.is_watertight = false ∧ mesh.afterProcess.is_watertight = true)) ∧
        exportName r.name ∈ out.2.1) ∧
    ∀ name mesh, env.loadMesh (name ++ GLOBAL_MESH_EXTENSION) = Except.ok mesh →
      mesh.initial.is_watertight = false → mesh.afterProcess.is_watertight = false →
      ∀ r ∈ out.1, r.name ≠ name := by
  obtain ⟨mns, hm, hrows, hexp, -⟩ := process_meshes_some h
  constructor
  · intro r hr
    have hro := row_processOne h hr
    obtain ⟨mesh, d, hload, hsel, -⟩ := processOne_some hro.1
    refine ⟨mesh, hload, selectMeshData_watertight hsel, ?_⟩
    rw [hexp, List.mem_map]
    refine ⟨r.name, ?_, rfl⟩
    rw [List.mem_filter]
    have hmem : r.name ∈ mns := by
      have h2 := hro.2
      rw [hm] at h2
      simpa using h2
    refine ⟨hmem, ?_⟩
    rw [hro.1]
    rfl
  · intro name mesh hload hw1 hw2 r hr heq
    have hro := (row_processOne h hr).1
    rw [heq] at hro
    have hsel : selectMeshData mesh = none := by
      unfold selectMeshData
      rw [if_neg (by simp [hw1]), if_neg (by simp [hw2])]
    obtain ⟨mesh2, d, hload2, hsel2, -⟩ := processOne_some hro
    rw [hload] at hload2
    rw [← Except.ok.inj hload2] at hsel2
    rw [hsel] at hsel2
    cases hsel2

/-- C5: every output row's inertia equals the library inertia of the
selected (watertight) mesh state divided by the library density,
multiplied by the target density and clamped componentwise, so every
component lies in the clamp range. -/
theorem inertia_rescaled_and_clamped (env : Env) (out : List Row × List String × Nat)
    (r : Row) (h : process_meshes env = some out) (hr : r ∈ out.1) :
    (∃ mesh d, env.loadMesh (r.name ++ GLOBAL_MESH_EXTENSION) = Except.ok mesh ∧
      selectMeshData mesh = some d ∧
      r.inertia = (d.inertia.map (fun row => row.map
        (fun x => clip (x / d.density * GLOBAL_DENSITY)))).flatten) ∧
    ∀ x ∈ r.inertia, -(1/10) ≤ x ∧ x ≤ 1/10 := by
  have hro := (row_processOne h hr).1
  obtain ⟨mesh, d, hload, hsel, hrq⟩ := processOne_some hro
  constructor
  · refine ⟨mesh, d, hload, hsel, ?_⟩
    rw [hrq]
    rfl
  · intro x hx
    rw [hrq] at hx
    obtain ⟨y, rfl⟩ := mem_scaleClampInertia hx
    exact clip_range y

/-- C6: the mass field of every output row equals the constant
`GLOBAL_MASS`, hence mass is identical across all rows. -/
theorem mass_constant_across_rows (env : Env) (out : List Row × List String × Nat)
    (h : process_meshes env = some out) :
    (∀ r ∈ out.1, r.mass = GLOBAL_MASS) ∧
    ∀ r ∈ out.1, ∀ s ∈ out.1, r.mass = s.mass := by
  have hmass : ∀ r ∈ out.1, r.mass = GLOBAL_MASS := by
    intro r hr
    obtain ⟨mesh, d, -, -, hrq⟩ := processOne_some (row_processOne h hr).1
    rw [hrq]
  exact ⟨hmass, fun r hr s hs => by rw [hmass r hr, hmass s hs]⟩

/-- A nonempty list is not `isEmpty`. -/
theorem isEmpty_ne_true_of_ne_nil {α : Type} {l : List α} (h : l ≠ []) :
    l.isEmpty ≠ true := by
  cases l with
  | nil => exact absurd rfl h
  | cons x xs => simp [List.isEmpty]

/-- The class list of a nonempty name list is nonempty. -/
theorem classesOf_ne_nil {names : List String} (h : names ≠ []) : classesOf names ≠ [] := by
  cases names with
  | nil => exact absurd rfl h
  | cons x xs =>
    simp only [classesOf, List.map_cons]
    exact dedupFirst_ne_nil

/-- C7 (counterexample): on an input with no files at all, the pipeline
does not complete — `get_unique_objects` receives an empty name list
and `np.vstack([])` raises, modelled by the `none` result. -/
theorem empty_input_crash_cex : process_meshes envEmpty = none := rfl

/-- C7 (amended): whenever at least one parameter record survives the
merge, the run completes, reports a count equal to the number of rows,
and a geometry file whose load fails is skipped without producing a
row and without aborting the batch. -/
theorem batch_completes_with_count (env : Env)
    (hne : (merge_parameter_files env PARAM_SUFFIX).1 ≠ []) :
    ∃ out, process_meshes env = some out ∧ out.2.2 = out.1.length ∧
      ∀ name e, env.loadMesh (name ++ GLOBAL_MESH_EXTENSION) = Except.error e →
        ∀ r ∈ out.1, r.name ≠ name := by
  have hcl := isEmpty_ne_true_of_ne_nil (classesOf_ne_nil hne)
  obtain ⟨mns, hm⟩ : ∃ mns, retainedNames env = some mns := by
    unfold retainedNames get_unique_objects
    rw [if_neg hcl]
    exact ⟨_, rfl⟩
  refine ⟨(mns.filterMap (processOne env),
          (mns.filter (fun n => (processOne env n).isSome)).map exportName,
          (mns.filterMap (processOne env)).length), ?_, rfl, ?_⟩
  · unfold process_meshes
    rw [hm]
    rfl
  · intro name e hload r hr heq
    rw [List.mem_filterMap] at hr
    obtain ⟨n, hn, hpn⟩ := hr
    have hnn : n = name := by rw [← processOne_name hpn, heq]
    rw [hnn, processOne_load_error hload] at hpn
    cases hpn

/-- C8: assuming the mesh library returns 3-vectors and 3x3 tensors,
every written summary row consists of exactly 14 cells — name, mass,
the 3 center-of-mass values, the 9 inertia values flattened row-major —
and the written file does not depend on any prior file content. -/
theorem summary_row_format_and_overwrite (env : Env)
    (out : List Row × List String × Nat) (hwf : EnvWF env)
    (h : process_meshes env = some out) :
    (∀ r ∈ out.1,
      rowCells r = Cell.str r.name :: Cell.num r.mass ::
        (r.com.map Cell.num ++ r.inertia.map Cell.num) ∧
      (rowCells r).length = 14) ∧
    ∀ p1 p2, writeSummary p1 out.1 = writeSummary p2 out.1 := by
  constructor
  · intro r hr
    obtain ⟨mesh, d, hload, hsel, hrq⟩ := processOne_some (row_processOne h hr).1
    have hdw : MeshDataWF d := by
      have hw := hwf _ _ hload
      rcases selectMeshData_some hsel with h1 | h1
      · rw [h1]; exact hw.1
      · rw [h1]; exact hw.2
    refine ⟨rfl, ?_⟩
    rw [hrq]
    simp only [rowCells, List.length_cons, List.length_append, List.length_map]
    rw [hdw.1, scaleClampInertia_length hdw]
  · intro p1 p2
    rfl

/-- C9: the pipeline is a deterministic function of its inputs — equal
directory listings and pointwise-equal file readers produce an
identical output table. -/
theorem pipeline_deterministic (env1 env2 : Env)
    (h1 : env1.objectListing = env2.objectListing)
    (h2 : env1.paramListing = env2.paramListing)
    (h3 : ∀ s, env1.readParams s = env2.readParams s)
    (h4 : ∀ s, env1.loadMesh s = env2.loadMesh s) :
    process_meshes env1 = process_meshes env2 := by
  have henv : env1 = env2 := by
    cases env1
    cases env2
    simp only [Env.mk.injEq]
    exact ⟨h1, h2, funext h3, funext h4⟩
  rw [henv]

/-! ## Witnesses -/

/-- The example environment satisfies the mesh-library contract. -/
theorem envEx_wf : EnvWF envEx := by
  intro path m h
  injection h with hm
  subst hm
  exact ⟨⟨rfl, rfl, by decide⟩, ⟨rfl, rfl, by decide⟩⟩

/-- Clamping zero gives zero. -/
theorem clip_zero : clip 0 = 0 := by
  norm_num [clip, rmin, rmax]

/-- The post-processed inertia of the example mesh state. -/
theorem scaleClampInertia_meshDataEx :
    scaleClampInertia meshDataEx = [0, 0, 0, 0, 0, 0, 0, 0, 0] := by
  unfold scaleClampInertia meshDataEx
  norm_num [clip, rmin, rmax]

/-- Processing the single object of `envEx` yields the example row. -/
theorem processOne_envEx : processOne envEx "box-1" = some rowEx := by
  have hsel : selectMeshData meshEx = some meshDataEx := by
    simp [selectMeshData, meshEx, meshDataEx]
  simp only [processOne, envEx, hsel]
  rw [scaleClampInertia_meshDataEx]
  simp [rowEx, meshDataEx, GLOBAL_MASS]

/-- The full pipeline output on the example environment. -/
theorem process_meshes_envEx : process_meshes envEx = some outEx := by
  have hret : retainedNames envEx = some ["box-1"] := by decide
  have hexp : exportName "box-1" = "box-1.stl" := by decide
  simp [process_meshes, hret, processOne_envEx, outEx, hexp]

/-- C2 (witness): on the concrete environment `envEx`, the single
output row's name has both files present. -/
theorem processed_names_have_both_files_witness :
    (∃ g ∈ envEx.objectListing, strBefore "." g = rowEx.name) ∧
    ∃ p ∈ envEx.paramListing, strContainsSub PARAM_SUFFIX p = true ∧
      strBefore PARAM_SUFFIX p = rowEx.name :=
  (processed_names_have_both_files envEx).2 outEx process_meshes_envEx rowEx
    (by simp [outEx])

/-- C4 (witness): the concrete row of `envEx` comes from a watertight
mesh and its converted copy was exported. -/
theorem summary_rows_watertight_witness :
    ∃ mesh, envEx.loadMesh (rowEx.name ++ GLOBAL_MESH_EXTENSION) = Except.ok mesh ∧
      (mesh.initial.is_watertight = true ∨
        (mesh.initial.is_watertight = false ∧ mesh.afterProcess.is_watertight = true)) ∧
      exportName rowEx.name ∈ outEx.2.1 :=
  (summary_rows_watertight envEx outEx process_meshes_envEx).1 rowEx (by simp [outEx])

/-- C5 (witness): the concrete row's inertia is the rescaled, clamped
library inertia and lies in the clamp range. -/
theorem inertia_rescaled_and_clamped_witness :
    (∃ mesh d, envEx.loadMesh (rowEx.name ++ GLOBAL_MESH_EXTENSION) = Except.ok mesh ∧
      selectMeshData mesh = some d ∧
      rowEx.inertia = (d.inertia.map (fun row => row.map
        (fun x => clip (x / d.density * GLOBAL_DENSITY)))).flatten) ∧
    ∀ x ∈ rowEx.inertia, -(1/10) ≤ x ∧ x ≤ 1/10 :=
  inertia_rescaled_and_clamped envEx outEx rowEx process_meshes_envEx (by simp [outEx])

/-- C6 (witness): on `envEx` every row's mass is the global constant. -/
theorem mass_constant_across_rows_witness :
    (∀ r ∈ outEx.1, r.mass = GLOBAL_MASS) ∧
    ∀ r ∈ outEx.1, ∀ s ∈ outEx.1, r.mass = s.mass :=
  mass_constant_across_rows envEx outEx process_meshes_envEx

/-- C7 (witness): on an environment whose geometry loads all fail, the
run still completes with a count equal to the number of rows. -/
theorem batch_completes_with_count_witness :
    ∃ out, process_meshes envLoadFail = some out ∧ out.2.2 = out.1.length ∧
      ∀ name e, envLoadFail.loadMesh (name ++ GLOBAL_MESH_EXTENSION) = Except.error e →
        ∀ r ∈ out.1, r.name ≠ name :=
  batch_completes_with_count envLoadFail (by decide)

/-- C8 (witness): the concrete output row of `envEx` has exactly 14
cells and the written file ignores prior content. -/
theorem summary_row_format_and_overwrite_witness :
    (∀ r ∈ outEx.1,
      rowCells r = Cell.str r.name :: Cell.num r.mass ::
        (r.com.map Cell.num ++ r.inertia.map Cell.num) ∧
      (rowCells r).length = 14) ∧
    ∀ p1 p2, writeSummary p1 outEx.1 = writeSummary p2 outEx.1 :=
  summary_row_format_and_overwrite envEx outEx envEx_wf process_meshes_envEx

/-- C9 (witness): two field-by-field equal environments produce the
same pipeline output. -/
theorem pipeline_deterministic_witness :
    process_meshes envEx = process_meshes envEx2 :=
  pipeline_deterministic envEx envEx2 rfl rfl (fun _ => rfl) (fun _ => rfl)

/-! ## Fallible parameter-merge lemmas (raw filesystem model) -/

/-- If any file in the merge loop fails to parse, the whole loop aborts
with an error. -/
theorem mergeRowsF_error {readRaw : String → Except String (List ℚ)} {pfix : String}
    {l : List String} {f : String} {e : String}
    (hf : f ∈ l) (he : readRaw (f ++ pfix) = Except.error e) :
    ∃ e2, mergeRowsF readRaw pfix l = Except.error e2 := by
  induction l with
  | nil => cases hf
  | cons x xs ih =>
    rcases List.mem_cons.mp hf with hfx | hx
    · refine ⟨e, ?_⟩
      rw [hfx] at he
      simp only [mergeRowsF, he]
    · cases hr : readRaw (x ++ pfix) with
      | error e3 => exact ⟨e3, by simp only [mergeRowsF, hr]⟩
      | ok fields =>
        obtain ⟨e2, h2⟩ := ih hx
        exact ⟨e2, by simp only [mergeRowsF, hr, h2]⟩

/-- When every file in the loop parses, the loop succeeds and keeps
exactly the files with 24 fields, in order, stripping the name and
taking the first five fields as coefficients. -/
theorem mergeRowsF_ok (readRaw : String → Except String (List ℚ)) (g : String → List ℚ)
    (pfix : String) (l : List String)
    (h : ∀ f ∈ l, readRaw (f ++ pfix) = Except.ok (g (f ++ pfix))) :
    mergeRowsF readRaw pfix l = Except.ok
      ((l.filter (fun f => decide ((g (f ++ pfix)).length = 24))).map
        (fun f => (strBefore pfix f, (g (f ++ pfix)).take 5))) := by
  induction l with
  | nil => rfl
  | cons x xs ih =>
    have hx := h x (List.mem_cons_self x xs)
    have hxs : ∀ f ∈ xs, readRaw (f ++ pfix) = Except.ok (g (f ++ pfix)) :=
      fun f hf => h f (List.mem_cons_of_mem x hf)
    simp only [mergeRowsF, hx, ih hxs, List.filter_cons]
    by_cases h24 : (g (x ++ pfix)).length = 24
    · simp [h24]
    · simp [h24]

/-- C3 (counterexample): a parameter file that `pd.read_csv` cannot
parse is not discarded silently — the unguarded read raises and the
merge aborts with that error instead of producing a table. -/
theorem malformed_param_file_raises_cex :
    "bad" ∈ morphCandidatesF fsEnvBad PARAM_SUFFIX ∧
      fsEnvBad.readParamsRaw ("bad" ++ PARAM_SUFFIX) = Except.error "EmptyDataError" ∧
      merge_parameter_files_fallible fsEnvBad PARAM_SUFFIX =
        Except.error "EmptyDataError" := by
  refine ⟨by decide, rfl, rfl⟩

/-- C3 (amended): during the merge, a candidate parameter file whose
parse raises aborts the entire merge with that error (no handling, not
a silent skip); when every candidate parses, the merge succeeds and a
file's values are kept if and only if parsing yields exactly 24 fields,
any other field count being discarded silently by omission. -/
theorem param_merge_raises_or_keeps_24 (fenv : FsEnv) (pfix : String) :
    (∀ f ∈ morphCandidatesF fenv pfix, ∀ e,
      fenv.readParamsRaw (f ++ pfix) = Except.error e →
      ∃ e2, merge_parameter_files_fallible fenv pfix = Except.error e2) ∧
    ∀ g : String → List ℚ,
      (∀ f ∈ morphCandidatesF fenv pfix,
        fenv.readParamsRaw (f ++ pfix) = Except.ok (g (f ++ pfix))) →
      merge_parameter_files_fallible fenv pfix = Except.ok
        (((morphCandidatesF fenv pfix).filter
            (fun f => decide ((g (f ++ pfix)).length = 24))).map
          (fun f => strBefore pfix f),
         ((morphCandidatesF fenv pfix).filter
            (fun f => decide ((g (f ++ pfix)).length = 24))).map
          (fun f => (g (f ++ pfix)).take 5)) := by
  constructor
  · intro f hf e he
    obtain ⟨e2, h2⟩ := mergeRowsF_error hf he
    exact ⟨e2, by simp only [merge_parameter_files_fallible, h2]⟩
  · intro g hg
    have h2 := mergeRowsF_ok fenv.readParamsRaw g pfix (morphCandidatesF fenv pfix) hg
    simp only [merge_parameter_files_fallible, h2, List.map_map]
    rfl

/-- C3 (witness): on `fsEnvOk`, whose two candidate files both parse
(`box-1` with 24 fields, `tri-1` with 23), the merge succeeds and keeps
exactly the 24-field candidates. -/
theorem param_merge_raises_or_keeps_24_witness :
    merge_parameter_files_fallible fsEnvOk PARAM_SUFFIX = Except.ok
      (((morphCandidatesF fsEnvOk PARAM_SUFFIX).filter
          (fun f => decide ((gEx (f ++ PARAM_SUFFIX)).length = 24))).map
        (fun f => strBefore PARAM_SUFFIX f),
       ((morphCandidatesF fsEnvOk PARAM_SUFFIX).filter
          (fun f => decide ((gEx (f ++ PARAM_SUFFIX)).length = 24))).map
        (fun f => (gEx (f ++ PARAM_SUFFIX)).take 5)) :=
  (param_merge_raises_or_keeps_24 fsEnvOk PARAM_SUFFIX).2 gEx (fun _ _ => rfl)

/-- The total-reader merge used by the rest of the development is the
projection of the fallible merge to runs in which every parse succeeds:
with equal listings and a raw reader that always returns what the total
reader would, the fallible merge succeeds with exactly the same table. -/
theorem merge_fallible_refines_total (fenv : FsEnv) (env : Env) (pfix : String)
    (h1 : fenv.objectListing = env.objectListing)
    (h2 : fenv.paramListing = env.paramListing)
    (h3 : ∀ s, fenv.readParamsRaw s = Except.ok (env.readParams s)) :
    merge_parameter_files_fallible fenv pfix =
      Except.ok (merge_parameter_files env pfix) := by
  have hcand : morphCandidatesF fenv pfix = morphCandidates env pfix := by
    simp only [morphCandidatesF, morphCandidates, objectBasenamesF, objectBasenames,
      h1, h2]
  have hrows := mergeRowsF_ok fenv.readParamsRaw env.readParams pfix
    (morphCandidatesF fenv pfix) (fun f _ => h3 (f ++ pfix))
  rw [hcand] at hrows
  simp only [merge_parameter_files_fallible, hcand, hrows, List.map_map,
    merge_parameter_files, keptMorphFiles]
  rfl
